import Mathlib

/-!
Shallow embedding of src/translate/gemini.rs (trans-epub).

The remote HTTP call performed by `request` (crate client::gemini), together
with prompt construction, is abstracted into an `Oracle`: for given
(language, model, api_key, original_lines) it yields the outcome of the
remote call plus JSON parsing.  A Rust panic is modelled as `none`; every
function additionally returns the number of Translation Client invocations
it performed.  The recursion of `translate_parallel` is bounded by the
`retry_count > 4` ceiling, so it is embedded structurally on the fuel
`max (6 - retry_count).toNat 1`, which is exactly the depth the ceiling
permits (proved fuel-irrelevant below).
-/

namespace TransEpub

/-- Outcome of one remote call made by `translate_bulk`:
`reqError` models `request(..)` returning `Err` (the `.expect` panics),
`parseError` models `serde_json::from_str::<Vec<Translated>>` failing,
`ok tvec` models a parsed `Vec<Translated>`, each element being the
`text : Vec<String>` field of one `Translated`. -/
inductive RemoteResp where
  | reqError : RemoteResp
  | parseError : RemoteResp
  | ok : List (List String) → RemoteResp

/-- The external Translation Client, as a function of the data
`translate_bulk` feeds into the request. -/
def Oracle : Type := String → String → String → List String → RemoteResp

/-- The struct `BulkTranslated` of gemini.rs (the opaque `stats` field,
used only for logging, is omitted). -/
structure BulkTranslated where
  number : Int
  original_lines : List String
  translated_lines : List String
deriving Repr, DecidableEq

/-- `translate_bulk` (gemini.rs lines 103-171): one chunk request.
`none` models the panic on a request error; on a parse error the result
keeps `original_lines` and has empty `translated_lines`; on success each
parsed paragraph, a list of sentences, is joined with a newline. -/
def translate_bulk (oracle : Oracle) (number : Int)
    (language model api_key : String) (original_lines : List String) :
    Option BulkTranslated :=
  match oracle language model api_key original_lines with
  | .reqError => none
  | .parseError =>
      some { number := number, original_lines := original_lines,
             translated_lines := [] }
  | .ok tvec =>
      some { number := number, original_lines := original_lines,
             translated_lines := tvec.map (fun t => String.intercalate "\n" t) }

/-- Fuel-indexed body of Rust `slice::chunks`: repeatedly take `n`, drop `n`.
The fuel only serves structural recursion; `chunksPos` supplies `l.length`,
which suffices whenever `0 < n`. -/
def chunksFuel (n : Nat) : Nat → List α → List (List α)
  | _, [] => []
  | 0, _ :: _ => []
  | fuel + 1, x :: xs => (x :: xs).take n :: chunksFuel n fuel ((x :: xs).drop n)

/-- `lines.chunks(n)` for `0 < n` (gemini.rs line 46); the `n = 0` panic of
`slice::chunks` is handled by the caller. -/
def chunksPos (n : Nat) (l : List α) : List (List α) :=
  chunksFuel n l.length l

/-- One dispatch round (gemini.rs lines 45-63): every chunk goes through
`translate_bulk`, receiving order numbers `number+1, number+2, ...`
(the source increments `number` before capturing `order_number`).
`none` models the panic of a request error inside the round; the `Nat`
counts Translation Client invocations. -/
def roundResponses (oracle : Oracle) (language model api_key : String)
    (number : Int) : List (List String) → Option (List BulkTranslated) × Nat
  | [] => (some [], 0)
  | c :: cs =>
    match translate_bulk oracle (number + 1) language model api_key c with
    | none => (none, 1)
    | some r =>
      match roundResponses oracle language model api_key (number + 1) cs with
      | (none, k) => (none, k + 1)
      | (some rs, k) => (some (r :: rs), k + 1)

/-- The comparison of `responses.sort_by(|a, b| a.number.cmp(&b.number))`. -/
def byNumberLE (a b : BulkTranslated) : Prop := a.number ≤ b.number

instance : DecidableRel byNumberLE := fun a b => Int.decLe a.number b.number

instance : IsTotal BulkTranslated byNumberLE :=
  ⟨fun a b => Int.le_total a.number b.number⟩

instance : IsTrans BulkTranslated byNumberLE :=
  ⟨fun _ _ _ h1 h2 => le_trans h1 h2⟩

/-- The sort at gemini.rs line 65.  Rust `sort_by` is stable; within a round
the keys are pairwise distinct, so any stable sort is extensionally the
insertion sort used here. -/
def sortByNumber (rs : List BulkTranslated) : List BulkTranslated :=
  List.insertionSort byNumberLE rs

/-- The reassembly loop of gemini.rs lines 67-99, abstracted over the
retry continuation (which `tpF` instantiates with the recursive call at
chunk size 1 and `retry_count + 1`).  A mismatched response past the
ceiling panics (`none`); otherwise the retried result replaces the
translated lines of that response, in its position. -/
def foldRetry (retry : List String → Option (List String) × Nat)
    (retry_count : Int) : List BulkTranslated → Option (List String) × Nat
  | [] => (some [], 0)
  | r :: rest =>
    if r.translated_lines.length ≠ r.original_lines.length then
      if retry_count > 4 then (none, 0)
      else
        match retry r.original_lines with
        | (none, k) => (none, k)
        | (some fixed, k) =>
          match foldRetry retry retry_count rest with
          | (none, k2) => (none, k + k2)
          | (some out, k2) => (some (fixed ++ out), k + k2)
    else
      match foldRetry retry retry_count rest with
      | (none, k2) => (none, k2)
      | (some out, k2) => (some (r.translated_lines ++ out), k2)

/-- Bookkeeping: add the invocation count of the dispatch round to the
count of the reassembly fold, keeping the outcome. -/
def stepTally (k : Nat) (p : Option (List String) × Nat) :
    Option (List String) × Nat :=
  (p.1, p.2 + k)

/-- Fuel-indexed `translate_parallel` (gemini.rs lines 36-101).
`chunk_lines = 0` models the immediate panic of `slice::chunks(0)`,
raised before any request is made.  The fuel-exhausted case is
unreachable from `translate_parallel` (see the fuel-irrelevance
theorem for claim C6). -/
def tpF (oracle : Oracle) (language model api_key : String) :
    Nat → List String → Nat → Nat → Int → Option (List String) × Nat
  | 0, _, _, _, _ => (none, 0)
  | fuel + 1, lines, chunk_lines, requests, retry_count =>
    if chunk_lines = 0 then (none, 0)
    else
      match roundResponses oracle language model api_key 0
          (chunksPos chunk_lines lines) with
      | (none, k) => (none, k)
      | (some rs, k) =>
        stepTally k
          (foldRetry
            (fun ls => tpF oracle language model api_key fuel ls 1 requests
              (retry_count + 1))
            retry_count (sortByNumber rs))

/-- `translate_parallel` (gemini.rs lines 36-101): the fuel
`max (6 - retry_count).toNat 1` is exactly the recursion depth the
`retry_count > 4` ceiling permits. -/
def translate_parallel (oracle : Oracle) (language model api_key : String)
    (lines : List String) (chunk_lines requests : Nat) (retry_count : Int) :
    Option (List String) × Nat :=
  tpF oracle language model api_key (max (6 - retry_count).toNat 1) lines
    chunk_lines requests retry_count

/-- Modelled from the spec: the configuration bundle `Context`
(src/translate/translator.rs is not among the sources; the fields are those
gemini.rs reads — target language, model identifier, credential,
chunk_size `lines`, concurrency_limit `requests`). -/
structure Context where
  language : String
  model : String
  api_key : String
  lines : Nat
  requests : Nat

/-- `translate` (gemini.rs lines 19-34): empty input is returned
immediately, otherwise `translate_parallel` starts at retry depth 0. -/
def translate (oracle : Oracle) (context : Context) (lines : List String) :
    Option (List String) × Nat :=
  if lines.isEmpty then (some lines, 0)
  else
    translate_parallel oracle context.language context.model context.api_key
      lines context.lines context.requests 0

/-- An oracle is faithful to a per-line translation `f` when every parsed
response whose paragraph count matches the input yields exactly the
per-line translations of the input. -/
def FaithfulOracle (oracle : Oracle) (f : String → String) : Prop :=
  ∀ language model api_key ls tvec,
    oracle language model api_key ls = .ok tvec → tvec.length = ls.length →
    tvec.map (fun t => String.intercalate "\n" t) = ls.map f

/-- A concrete well-behaved client for concrete runs: every line is
translated to itself prefixed with "T:". -/
def demoOracle : Oracle :=
  fun _ _ _ ls => RemoteResp.ok (ls.map (fun s => ["T:" ++ s]))

/-- A concrete client whose response never parses. -/
def parseFailOracle : Oracle := fun _ _ _ _ => RemoteResp.parseError

/-- The first chunk result of the demo round on ["a", "b", "c"] with
chunk size 2. -/
def demoBT1 : BulkTranslated :=
  { number := 1, original_lines := ["a", "b"],
    translated_lines := ["T:a", "T:b"] }

/-- The second chunk result of the demo round on ["a", "b", "c"] with
chunk size 2. -/
def demoBT2 : BulkTranslated :=
  { number := 2, original_lines := ["c"], translated_lines := ["T:c"] }

/-! ## Chunker facts -/

lemma chunksFuel_flatten {α : Type} {n : Nat} (hn : 0 < n) :
    ∀ (fuel : Nat) (l : List α), l.length ≤ fuel →
      (chunksFuel n fuel l).flatten = l := by
  intro fuel
  induction fuel with
  | zero =>
    intro l hl
    have : l = [] := List.eq_nil_of_length_eq_zero (Nat.le_zero.mp hl)
    subst this
    rfl
  | succ fuel ih =>
    intro l hl
    cases l with
    | nil => rfl
    | cons x xs =>
      have hdrop : ((x :: xs).drop n).length ≤ fuel := by
        simp only [List.length_drop, List.length_cons]
        simp only [List.length_cons] at hl
        omega
      simp only [chunksFuel, List.flatten_cons, ih _ hdrop,
        List.take_append_drop]

lemma chunksPos_flatten {α : Type} {n : Nat} (hn : 0 < n) (l : List α) :
    (chunksPos n l).flatten = l :=
  chunksFuel_flatten hn l.length l le_rfl

lemma chunksFuel_mem_length {α : Type} {n : Nat} (hn : 0 < n) :
    ∀ (fuel : Nat) (l : List α) (c : List α), c ∈ chunksFuel n fuel l →
      0 < c.length ∧ c.length ≤ n := by
  intro fuel
  induction fuel with
  | zero =>
    intro l c hc
    cases l with
    | nil => simp [chunksFuel] at hc
    | cons x xs => simp [chunksFuel] at hc
  | succ fuel ih =>
    intro l c hc
    cases l with
    | nil => simp [chunksFuel] at hc
    | cons x xs =>
      simp only [chunksFuel, List.mem_cons] at hc
      rcases hc with hc | hc
      · subst hc
        constructor
        · simp [List.length_take]
          omega
        · simp [List.length_take]
      · exact ih _ _ hc

lemma chunksPos_mem_length {α : Type} {n : Nat} (hn : 0 < n) {l c : List α}
    (hc : c ∈ chunksPos n l) : 0 < c.length ∧ c.length ≤ n :=
  chunksFuel_mem_length hn l.length l c hc

lemma chunksFuel_dropLast_length {α : Type} {n : Nat} (hn : 0 < n) :
    ∀ (fuel : Nat) (l : List α) (c : List α),
      c ∈ (chunksFuel n fuel l).dropLast → c.length = n := by
  intro fuel
  induction fuel with
  | zero =>
    intro l c hc
    cases l with
    | nil => simp [chunksFuel] at hc
    | cons x xs => simp [chunksFuel] at hc
  | succ fuel ih =>
    intro l c hc
    cases l with
    | nil => simp [chunksFuel] at hc
    | cons x xs =>
      rcases hrest : chunksFuel n fuel ((x :: xs).drop n) with _ | ⟨r, rest⟩
      · simp [chunksFuel, hrest] at hc
      · have hne : (x :: xs).drop n ≠ [] := by
          intro hnil
          rw [hnil] at hrest
          simp [chunksFuel] at hrest
        simp only [chunksFuel, hrest, List.dropLast_cons_of_ne_nil,
          List.cons_ne_nil, List.mem_cons, ne_eq, not_false_eq_true] at hc
        rcases hc with hc | hc
        · subst hc
          have hlen : n < (x :: xs).length := by
            by_contra hle
            push_neg at hle
            exact hne (List.drop_eq_nil_of_le hle)
          rw [List.length_take]
          simp only [List.length_cons] at hlen ⊢
          omega
        · rw [← hrest] at hc
          exact ih _ _ hc

lemma chunksPos_dropLast_length {α : Type} {n : Nat} (hn : 0 < n) {l : List α}
    {c : List α} (hc : c ∈ (chunksPos n l).dropLast) : c.length = n :=
  chunksFuel_dropLast_length hn l.length l c hc

lemma chunksPos_ne_nil {α : Type} {n : Nat} (hn : 0 < n) {l : List α}
    (hl : l ≠ []) : chunksPos n l ≠ [] := by
  intro hnil
  apply hl
  have := chunksPos_flatten hn l
  rw [hnil] at this
  exact this.symm

/-! ## Facts about one chunk request -/

lemma translate_bulk_parts {oracle : Oracle} {num : Int}
    {language model api_key : String} {c : List String} {r : BulkTranslated}
    (h : translate_bulk oracle num language model api_key c = some r) :
    r.number = num ∧ r.original_lines = c := by
  unfold translate_bulk at h
  rcases horacle : oracle language model api_key c with _ | _ | tvec <;>
    rw [horacle] at h <;> simp at h <;> simp [← h]

lemma translate_bulk_matched_map {oracle : Oracle} {f : String → String}
    (hF : FaithfulOracle oracle f) {num : Int}
    {language model api_key : String} {c : List String} {r : BulkTranslated}
    (h : translate_bulk oracle num language model api_key c = some r)
    (hm : r.translated_lines.length = r.original_lines.length) :
    r.translated_lines = r.original_lines.map f := by
  unfold translate_bulk at h
  rcases horacle : oracle language model api_key c with _ | _ | tvec <;>
    rw [horacle] at h
  · exact absurd h (by simp)
  · simp only [Option.some.injEq] at h
    subst h
    have hc : c = [] := List.eq_nil_of_length_eq_zero (by simpa using hm.symm)
    subst hc
    rfl
  · simp only [Option.some.injEq] at h
    subst h
    simp only [List.length_map] at hm
    exact hF language model api_key c tvec horacle hm

/-! ## Facts about one dispatch round -/

lemma roundResponses_spec {oracle : Oracle} {language model api_key : String} :
    ∀ (cs : List (List String)) (num : Int) (rs : List BulkTranslated)
      (k : Nat),
      roundResponses oracle language model api_key num cs = (some rs, k) →
      rs.map (fun r => r.original_lines) = cs ∧
      k = cs.length ∧
      rs.map (fun r => r.number)
        = (List.range cs.length).map (fun i : Nat => num + 1 + (i : Int)) ∧
      ∀ r ∈ rs, translate_bulk oracle r.number language model api_key
        r.original_lines = some r := by
  intro cs
  induction cs with
  | nil =>
    intro num rs k h
    simp only [roundResponses, Prod.mk.injEq, Option.some.injEq] at h
    rcases h with ⟨rfl, rfl⟩
    simp
  | cons c cs ih =>
    intro num rs k h
    simp only [roundResponses] at h
    rcases hb : translate_bulk oracle (num + 1) language model api_key c
      with _ | r0
    · rw [hb] at h
      simp at h
    · rw [hb] at h
      rcases hrr : roundResponses oracle language model api_key (num + 1) cs
        with ⟨_ | rs', k'⟩
      · rw [hrr] at h
        simp at h
      · rw [hrr] at h
        simp only [Prod.mk.injEq, Option.some.injEq] at h
        rcases h with ⟨rfl, rfl⟩
        obtain ⟨hmap, hk, hnum, hmem⟩ := ih (num + 1) rs' k' hrr
        obtain ⟨hr0num, hr0orig⟩ := translate_bulk_parts hb
        refine ⟨?_, ?_, ?_, ?_⟩
        · simp [hmap, hr0orig]
        · simp [hk]
        · simp only [List.map_cons, hnum, hr0num, List.length_cons,
            List.range_succ_eq_map, List.map_map]
          rw [List.cons_eq_cons]
          constructor
          · push_cast
            ring
          · apply List.map_congr_left
            intro a _
            simp only [Function.comp_apply]
            push_cast
            ring
        · intro r hr
          rcases List.mem_cons.mp hr with rfl | hr
          · rw [hr0num, hr0orig]
            exact hb
          · exact hmem r hr

/-! ## Sorting facts -/

/-- Strict comparison by order number. -/
def byNumberLT (a b : BulkTranslated) : Prop := a.number < b.number

instance : IsAntisymm BulkTranslated byNumberLT :=
  ⟨fun _ _ h1 h2 => absurd (lt_trans h1 h2) (lt_irrefl _)⟩

lemma roundResponses_pairwise_lt {oracle : Oracle}
    {language model api_key : String} {cs : List (List String)} {num : Int}
    {rs : List BulkTranslated} {k : Nat}
    (h : roundResponses oracle language model api_key num cs = (some rs, k)) :
    rs.Pairwise byNumberLT := by
  obtain ⟨-, -, hnum, -⟩ := roundResponses_spec cs num rs k h
  have hpair : (rs.map (fun r => r.number)).Pairwise (· < ·) := by
    rw [hnum, List.pairwise_map]
    apply (List.pairwise_lt_range cs.length).imp
    intro a b hab
    omega
  rw [List.pairwise_map] at hpair
  exact hpair

lemma roundResponses_sorted {oracle : Oracle}
    {language model api_key : String} {cs : List (List String)} {num : Int}
    {rs : List BulkTranslated} {k : Nat}
    (h : roundResponses oracle language model api_key num cs = (some rs, k)) :
    sortByNumber rs = rs :=
  List.Sorted.insertionSort_eq
    ((roundResponses_pairwise_lt h).imp (fun hab => le_of_lt hab))

lemma sorted_lt_of_sorted_le_nodup {l : List BulkTranslated}
    (hs : List.Sorted byNumberLE l)
    (hnd : (l.map (fun r => r.number)).Nodup) : List.Sorted byNumberLT l := by
  rw [List.Nodup, List.pairwise_map] at hnd
  exact (hs.and hnd).imp (fun hab =>
    lt_of_le_of_ne hab.1 hab.2)

lemma sortByNumber_eq_of_perm {rs rs' : List BulkTranslated}
    (hnd : (rs.map (fun r => r.number)).Nodup) (hp : rs'.Perm rs) :
    sortByNumber rs' = sortByNumber rs := by
  have hnd' : (rs'.map (fun r => r.number)).Nodup :=
    ((hp.map (fun r => r.number)).nodup_iff).mpr hnd
  have hperm : (sortByNumber rs').Perm (sortByNumber rs) :=
    ((List.perm_insertionSort byNumberLE rs').trans hp).trans
      (List.perm_insertionSort byNumberLE rs).symm
  refine List.eq_of_perm_of_sorted (r := byNumberLT) hperm ?_ ?_
  · exact sorted_lt_of_sorted_le_nodup
      (List.sorted_insertionSort byNumberLE rs')
      (((List.perm_insertionSort byNumberLE rs').map
        (fun r => r.number)).nodup_iff.mpr hnd')
  · exact sorted_lt_of_sorted_le_nodup
      (List.sorted_insertionSort byNumberLE rs)
      (((List.perm_insertionSort byNumberLE rs).map
        (fun r => r.number)).nodup_iff.mpr hnd)

lemma roundResponses_nodup_numbers {oracle : Oracle}
    {language model api_key : String} {cs : List (List String)} {num : Int}
    {rs : List BulkTranslated} {k : Nat}
    (h : roundResponses oracle language model api_key num cs = (some rs, k)) :
    (rs.map (fun r => r.number)).Nodup := by
  have hp := roundResponses_pairwise_lt h
  rw [List.Nodup, List.pairwise_map]
  exact hp.imp (fun hab => ne_of_lt hab)

/-! ## Facts about the reassembly fold -/

lemma foldRetry_some_length
    {retry : List String → Option (List String) × Nat} {retry_count : Int}
    (hretry : ∀ ls out k, retry ls = (some out, k) → out.length = ls.length) :
    ∀ (rs : List BulkTranslated) (out : List String) (k : Nat),
      foldRetry retry retry_count rs = (some out, k) →
      out.length = (rs.map (fun r => r.original_lines.length)).sum := by
  intro rs
  induction rs with
  | nil =>
    intro out k h
    simp only [foldRetry, Prod.mk.injEq, Option.some.injEq] at h
    simp [← h.1]
  | cons r rest ih =>
    intro out k h
    simp only [foldRetry] at h
    by_cases hmis : r.translated_lines.length ≠ r.original_lines.length
    · rw [if_pos hmis] at h
      by_cases hrc : retry_count > 4
      · rw [if_pos hrc] at h
        simp at h
      · rw [if_neg hrc] at h
        rcases hr : retry r.original_lines with ⟨_ | fixed, kf⟩
        · rw [hr] at h
          simp at h
        · rw [hr] at h
          rcases hrest : foldRetry retry retry_count rest with ⟨_ | out2, k2⟩
          · rw [hrest] at h
            simp at h
          · rw [hrest] at h
            simp only [Prod.mk.injEq, Option.some.injEq] at h
            rcases h with ⟨rfl, rfl⟩
            simp only [List.map_cons, List.sum_cons, List.length_append]
            rw [ih out2 k2 hrest, hretry _ _ _ hr]
    · rw [if_neg hmis] at h
      push_neg at hmis
      rcases hrest : foldRetry retry retry_count rest with ⟨_ | out2, k2⟩
      · rw [hrest] at h
        simp at h
      · rw [hrest] at h
        simp only [Prod.mk.injEq, Option.some.injEq] at h
        rcases h with ⟨rfl, rfl⟩
        simp only [List.map_cons, List.sum_cons, List.length_append]
        rw [ih out2 k2 hrest, hmis]

lemma foldRetry_some_map {f : String → String}
    {retry : List String → Option (List String) × Nat} {retry_count : Int}
    (hretry : ∀ ls out k, retry ls = (some out, k) → out = ls.map f) :
    ∀ (rs : List BulkTranslated),
      (∀ r ∈ rs, r.translated_lines.length = r.original_lines.length →
        r.translated_lines = r.original_lines.map f) →
      ∀ (out : List String) (k : Nat),
        foldRetry retry retry_count rs = (some out, k) →
        out = ((rs.map (fun r => r.original_lines)).flatten).map f := by
  intro rs
  induction rs with
  | nil =>
    intro _ out k h
    simp only [foldRetry, Prod.mk.injEq, Option.some.injEq] at h
    simp [← h.1]
  | cons r rest ih =>
    intro helem out k h
    have hr_elem := helem r (List.mem_cons_self r rest)
    have hrest_elem : ∀ x ∈ rest,
        x.translated_lines.length = x.original_lines.length →
        x.translated_lines = x.original_lines.map f :=
      fun x hx => helem x (List.mem_cons_of_mem r hx)
    simp only [foldRetry] at h
    by_cases hmis : r.translated_lines.length ≠ r.original_lines.length
    · rw [if_pos hmis] at h
      by_cases hrc : retry_count > 4
      · rw [if_pos hrc] at h
        simp at h
      · rw [if_neg hrc] at h
        rcases hr : retry r.original_lines with ⟨_ | fixed, kf⟩
        · rw [hr] at h
          simp at h
        · rw [hr] at h
          rcases hrest : foldRetry retry retry_count rest with ⟨_ | out2, k2⟩
          · rw [hrest] at h
            simp at h
          · rw [hrest] at h
            simp only [Prod.mk.injEq, Option.some.injEq] at h
            rcases h with ⟨rfl, rfl⟩
            simp only [List.map_cons, List.flatten_cons, List.map_append]
            rw [ih hrest_elem out2 k2 hrest, hretry _ _ _ hr]
    · rw [if_neg hmis] at h
      push_neg at hmis
      rcases hrest : foldRetry retry retry_count rest with ⟨_ | out2, k2⟩
      · rw [hrest] at h
        simp at h
      · rw [hrest] at h
        simp only [Prod.mk.injEq, Option.some.injEq] at h
        rcases h with ⟨rfl, rfl⟩
        simp only [List.map_cons, List.flatten_cons, List.map_append]
        rw [ih hrest_elem out2 k2 hrest, hr_elem hmis]

lemma foldRetry_retry_irrel
    (retry retry' : List String → Option (List String) × Nat)
    {retry_count : Int} (hrc : retry_count > 4) :
    ∀ rs : List BulkTranslated,
      foldRetry retry retry_count rs = foldRetry retry' retry_count rs := by
  intro rs
  induction rs with
  | nil => rfl
  | cons r rest ih =>
    simp only [foldRetry, ih]
    by_cases hmis : r.translated_lines.length ≠ r.original_lines.length
    · rw [if_pos hmis, if_pos hmis, if_pos hrc, if_pos hrc]
    · rw [if_neg hmis, if_neg hmis]

/-! ## Facts about the fuelled translate_parallel -/

lemma tpF_some_length {oracle : Oracle} {language model api_key : String} :
    ∀ (fuel : Nat) (lines : List String) (chunk_lines requests : Nat)
      (retry_count : Int) (out : List String) (k : Nat),
      tpF oracle language model api_key fuel lines chunk_lines requests
        retry_count = (some out, k) →
      out.length = lines.length := by
  intro fuel
  induction fuel with
  | zero =>
    intro lines cl req rc out k h
    simp [tpF] at h
  | succ fuel ih =>
    intro lines cl req rc out k h
    rw [tpF] at h
    by_cases hcl : cl = 0
    · rw [if_pos hcl] at h
      simp at h
    · rw [if_neg hcl] at h
      split at h
      next k1 hrr =>
        simp at h
      next rs k1 hrr =>
        rcases hfold : foldRetry
            (fun ls => tpF oracle language model api_key fuel ls 1 req
              (rc + 1)) rc (sortByNumber rs) with ⟨o2, k2⟩
        rw [hfold] at h
        simp only [stepTally] at h
        rcases o2 with _ | out2
        · simp at h
        · simp only [Prod.mk.injEq, Option.some.injEq] at h
          rcases h with ⟨rfl, rfl⟩
          have hretry : ∀ (ls out : List String) (kk : Nat),
              tpF oracle language model api_key fuel ls 1 req (rc + 1)
                = (some out, kk) → out.length = ls.length :=
            fun ls out kk hls => ih ls 1 req (rc + 1) out kk hls
          have hlen := foldRetry_some_length hretry (sortByNumber rs) out2
            k2 hfold
          rw [roundResponses_sorted hrr] at hlen
          obtain ⟨hmap, -, -, -⟩ := roundResponses_spec _ _ _ _ hrr
          have hmaps : rs.map (fun r => r.original_lines.length)
              = (chunksPos cl lines).map List.length := by
            rw [← hmap, List.map_map]
            rfl
          rw [hlen, hmaps, ← List.length_flatten,
            chunksPos_flatten (Nat.pos_of_ne_zero hcl)]

lemma tpF_some_map {oracle : Oracle} {f : String → String}
    (hF : FaithfulOracle oracle f) {language model api_key : String} :
    ∀ (fuel : Nat) (lines : List String) (chunk_lines requests : Nat)
      (retry_count : Int) (out : List String) (k : Nat),
      tpF oracle language model api_key fuel lines chunk_lines requests
        retry_count = (some out, k) →
      out = lines.map f := by
  intro fuel
  induction fuel with
  | zero =>
    intro lines cl req rc out k h
    simp [tpF] at h
  | succ fuel ih =>
    intro lines cl req rc out k h
    rw [tpF] at h
    by_cases hcl : cl = 0
    · rw [if_pos hcl] at h
      simp at h
    · rw [if_neg hcl] at h
      split at h
      next k1 hrr =>
        simp at h
      next rs k1 hrr =>
        rcases hfold : foldRetry
            (fun ls => tpF oracle language model api_key fuel ls 1 req
              (rc + 1)) rc (sortByNumber rs) with ⟨o2, k2⟩
        rw [hfold] at h
        simp only [stepTally] at h
        rcases o2 with _ | out2
        · simp at h
        · simp only [Prod.mk.injEq, Option.some.injEq] at h
          rcases h with ⟨rfl, rfl⟩
          have hretry : ∀ (ls out : List String) (kk : Nat),
              tpF oracle language model api_key fuel ls 1 req (rc + 1)
                = (some out, kk) → out = ls.map f :=
            fun ls out kk hls => ih ls 1 req (rc + 1) out kk hls
          obtain ⟨hmap, -, -, hmem⟩ := roundResponses_spec _ _ _ _ hrr
          have helem : ∀ r ∈ sortByNumber rs,
              r.translated_lines.length = r.original_lines.length →
              r.translated_lines = r.original_lines.map f := by
            intro r hr hmatched
            have hr' : r ∈ rs :=
              ((List.perm_insertionSort byNumberLE rs).mem_iff).mp hr
            exact translate_bulk_matched_map hF (hmem r hr') hmatched
          have hout := foldRetry_some_map hretry (sortByNumber rs) helem
            out2 k2 hfold
          rw [roundResponses_sorted hrr, hmap,
            chunksPos_flatten (Nat.pos_of_ne_zero hcl)] at hout
          exact hout

lemma tpF_fuel_congr {oracle : Oracle} {language model api_key : String} :
    ∀ (fuel1 fuel2 : Nat) (lines : List String) (chunk_lines requests : Nat)
      (retry_count : Int),
      max (6 - retry_count).toNat 1 ≤ fuel1 →
      max (6 - retry_count).toNat 1 ≤ fuel2 →
      tpF oracle language model api_key fuel1 lines chunk_lines requests
        retry_count
        = tpF oracle language model api_key fuel2 lines chunk_lines requests
          retry_count := by
  intro fuel1
  induction fuel1 with
  | zero =>
    intro fuel2 lines cl req rc h1 h2
    exact absurd h1 (by omega)
  | succ fuel1 ih =>
    intro fuel2 lines cl req rc h1 h2
    rcases fuel2 with _ | fuel2
    · exact absurd h2 (by omega)
    · by_cases hrc : rc > 4
      · simp only [tpF]
        split
        · rfl
        · split
          next => rfl
          next =>
            congr 1
            apply foldRetry_retry_irrel _ _ hrc
      · have hfun : (fun ls => tpF oracle language model api_key fuel1 ls 1
            req (rc + 1))
            = (fun ls => tpF oracle language model api_key fuel2 ls 1 req
              (rc + 1)) :=
          funext (fun ls => ih fuel2 ls 1 req (rc + 1) (by omega) (by omega))
        simp only [tpF, hfun]

/-! ## Persistent structural mismatch -/

lemma roundResponses_parse_error {oracle : Oracle}
    {language model api_key : String}
    (hbad : ∀ ls, oracle language model api_key ls = RemoteResp.parseError) :
    ∀ (cs : List (List String)) (num : Int),
      ∃ rs, roundResponses oracle language model api_key num cs
          = (some rs, cs.length) ∧
        rs.map (fun r => r.original_lines) = cs ∧
        ∀ r ∈ rs, r.translated_lines = [] := by
  intro cs
  induction cs with
  | nil =>
    intro num
    exact ⟨[], rfl, rfl, by simp⟩
  | cons c cs ih =>
    intro num
    obtain ⟨rs, hrr, hmap, htr⟩ := ih (num + 1)
    refine ⟨{ number := num + 1, original_lines := c,
              translated_lines := [] } :: rs, ?_, ?_, ?_⟩
    · simp only [roundResponses, translate_bulk, hbad c]
      rw [hrr]
      simp
    · simp [hmap]
    · intro r hr
      rcases List.mem_cons.mp hr with rfl | hr
      · rfl
      · exact htr r hr

lemma tpF_parse_error_none {oracle : Oracle} {language model api_key : String}
    (hbad : ∀ ls, oracle language model api_key ls = RemoteResp.parseError) :
    ∀ (fuel : Nat) (lines : List String) (chunk_lines requests : Nat)
      (retry_count : Int), lines ≠ [] → chunk_lines ≠ 0 →
      (tpF oracle language model api_key fuel lines chunk_lines requests
        retry_count).1 = none := by
  intro fuel
  induction fuel with
  | zero =>
    intro lines cl req rc _ _
    simp [tpF]
  | succ fuel ih =>
    intro lines cl req rc hne hcl
    have hn : 0 < cl := Nat.pos_of_ne_zero hcl
    rw [tpF, if_neg hcl]
    obtain ⟨rs, hrr, hmap, htr⟩ :=
      roundResponses_parse_error hbad (chunksPos cl lines) 0
    rw [hrr]
    show (stepTally (chunksPos cl lines).length
      (foldRetry (fun ls => tpF oracle language model api_key fuel ls 1 req
        (rc + 1)) rc (sortByNumber rs))).1 = none
    rcases hs : sortByNumber rs with _ | ⟨r0, rest⟩
    · exfalso
      have : rs = [] :=
        List.Perm.eq_nil (by rw [← hs]; exact
          (List.perm_insertionSort byNumberLE rs).symm)
      rw [this] at hmap
      exact chunksPos_ne_nil hn hne (by simpa using hmap.symm)
    · have hr0 : r0 ∈ rs := by
        have : r0 ∈ sortByNumber rs := by
          rw [hs]
          exact List.mem_cons_self r0 rest
        exact ((List.perm_insertionSort byNumberLE rs).mem_iff).mp this
      have htr0 : r0.translated_lines = [] := htr r0 hr0
      have horig : r0.original_lines ∈ chunksPos cl lines := by
        rw [← hmap]
        exact List.mem_map_of_mem (fun r => r.original_lines) hr0
      have horigpos : 0 < r0.original_lines.length :=
        (chunksPos_mem_length hn horig).1
      have hmis : r0.translated_lines.length ≠ r0.original_lines.length := by
        rw [htr0]
        simp
        omega
      rw [foldRetry, if_pos hmis]
      by_cases hrc : rc > 4
      · rw [if_pos hrc]
        rfl
      · rw [if_neg hrc]
        have hone : r0.original_lines ≠ [] := by
          intro h0
          rw [h0] at horigpos
          simp at horigpos
        have hnone := ih r0.original_lines 1 req (rc + 1) hone (by omega)
        rcases hretry : tpF oracle language model api_key fuel
            r0.original_lines 1 req (rc + 1) with ⟨o, kk⟩
        rw [hretry] at hnone
        simp at hnone
        subst hnone
        rfl

/-! ## Claim theorems -/

/-- C1: for every non-empty input line sequence and every positive
chunk_size and concurrency_limit, if translate returns normally, the
returned sequence is non-empty, its length equals the input length, and
each output position holds the translation of the input line at the same
position (with respect to any per-line translation the client is faithful
to). -/
theorem claim_C1_output_matches_input (oracle : Oracle) (context : Context)
    (lines out : List String) (k : Nat)
    (hne : lines ≠ []) (hchunk : 0 < context.lines)
    (hreq : 0 < context.requests)
    (h : translate oracle context lines = (some out, k)) :
    out.length = lines.length ∧ out ≠ [] ∧
      ∀ f, FaithfulOracle oracle f → out = lines.map f := by
  unfold translate at h
  rw [if_neg (by simpa using hne)] at h
  unfold translate_parallel at h
  have hlen := tpF_some_length _ _ _ _ _ _ _ h
  refine ⟨hlen, ?_, ?_⟩
  · intro h0
    rw [h0] at hlen
    exact hne (List.eq_nil_of_length_eq_zero (by simpa using hlen.symm))
  · intro f hF
    exact tpF_some_map hF _ _ _ _ _ _ _ h

theorem claim_C1_witness :
    (["T:a", "T:b", "T:c"] : List String).length
        = (["a", "b", "c"] : List String).length ∧
    (["T:a", "T:b", "T:c"] : List String) ≠ [] ∧
    ∀ f, FaithfulOracle demoOracle f →
      (["T:a", "T:b", "T:c"] : List String)
        = (["a", "b", "c"] : List String).map f :=
  claim_C1_output_matches_input demoOracle
    { language := "vi", model := "g", api_key := "key", lines := 2,
      requests := 2 }
    ["a", "b", "c"] ["T:a", "T:b", "T:c"] 2 (by decide) (by decide)
    (by decide) rfl

/-- C2: for every positive chunk size, the chunker splits the input into
contiguous non-overlapping chunks, all of the configured size except
possibly a shorter last one; the dispatch round assigns sequence indices
1, 2, 3, ... in production order, and concatenating the chunks in that
order reconstructs the original sequence. -/
theorem claim_C2_chunker_contract (oracle : Oracle)
    (language model api_key : String) (lines : List String) (n : Nat)
    (rs : List BulkTranslated) (k : Nat) (hn : 0 < n)
    (hround : roundResponses oracle language model api_key 0
      (chunksPos n lines) = (some rs, k)) :
    (∀ c ∈ (chunksPos n lines).dropLast, c.length = n) ∧
    (∀ c ∈ chunksPos n lines, 0 < c.length ∧ c.length ≤ n) ∧
    rs.map (fun r => r.number)
      = (List.range (chunksPos n lines).length).map
          (fun i : Nat => (i : Int) + 1) ∧
    (rs.map (fun r => r.original_lines)).flatten = lines := by
  obtain ⟨hmap, -, hnum, -⟩ := roundResponses_spec _ _ _ _ hround
  refine ⟨fun c hc => chunksPos_dropLast_length hn hc,
    fun c hc => chunksPos_mem_length hn hc, ?_, ?_⟩
  · rw [hnum]
    apply List.map_congr_left
    intro a _
    omega
  · rw [hmap, chunksPos_flatten hn]

theorem claim_C2_witness :
    (∀ c ∈ (chunksPos 2 ["a", "b", "c"]).dropLast, c.length = 2) ∧
    (∀ c ∈ chunksPos 2 ["a", "b", "c"], 0 < c.length ∧ c.length ≤ 2) ∧
    ([{ number := 1, original_lines := ["a", "b"],
        translated_lines := ["T:a", "T:b"] },
      { number := 2, original_lines := ["c"],
        translated_lines := ["T:c"] }] : List BulkTranslated).map
        (fun r => r.number)
      = (List.range (chunksPos 2 ["a", "b", "c"]).length).map
          (fun i : Nat => (i : Int) + 1) ∧
    (([{ number := 1, original_lines := ["a", "b"],
         translated_lines := ["T:a", "T:b"] },
       { number := 2, original_lines := ["c"],
         translated_lines := ["T:c"] }] : List BulkTranslated).map
        (fun r => r.original_lines)).flatten = ["a", "b", "c"] :=
  claim_C2_chunker_contract demoOracle "vi" "g" "key" ["a", "b", "c"] 2
    [{ number := 1, original_lines := ["a", "b"],
       translated_lines := ["T:a", "T:b"] },
     { number := 2, original_lines := ["c"],
       translated_lines := ["T:c"] }] 2 (by decide) rfl

/-- C3: the final output order is invariant under the completion order of
the concurrent chunk operations: any permutation of the delivered round
results sorts to the same list, so the reassembled output is identical. -/
theorem claim_C3_completion_order_invariant (oracle : Oracle)
    (language model api_key : String) (cs : List (List String))
    (rs rs' : List BulkTranslated) (k : Nat)
    (retryF : List String → Option (List String) × Nat) (retry_count : Int)
    (hround : roundResponses oracle language model api_key 0 cs
      = (some rs, k))
    (hperm : rs'.Perm rs) :
    sortByNumber rs' = sortByNumber rs ∧
    foldRetry retryF retry_count (sortByNumber rs')
      = foldRetry retryF retry_count (sortByNumber rs) := by
  have heq :=
    sortByNumber_eq_of_perm (roundResponses_nodup_numbers hround) hperm
  exact ⟨heq, by rw [heq]⟩

theorem claim_C3_witness :
    sortByNumber [demoBT2, demoBT1] = sortByNumber [demoBT1, demoBT2] ∧
    foldRetry (fun ls => (some ls, 0)) 0 (sortByNumber [demoBT2, demoBT1])
      = foldRetry (fun ls => (some ls, 0)) 0
          (sortByNumber [demoBT1, demoBT2]) :=
  claim_C3_completion_order_invariant demoOracle "vi" "g" "key"
    [["a", "b"], ["c"]] [demoBT1, demoBT2] [demoBT2, demoBT1] 2
    (fun ls => (some ls, 0)) 0 rfl (by decide)

/-- C4: whenever a chunk result has a translated line count differing from
its original line count and the retry ceiling is not exceeded, exactly
that chunk's original lines are re-dispatched through the full
translate_parallel cycle with chunk size forced to 1 and retry depth
incremented by 1, and the recovered result (which restores the original
line count) replaces that chunk's translated lines in its position. -/
theorem claim_C4_mismatch_retry (oracle : Oracle)
    (language model api_key : String) (requests : Nat) (retry_count : Int)
    (r : BulkTranslated) (rest : List BulkTranslated)
    (fixed out2 : List String) (kf k2 : Nat)
    (hmis : r.translated_lines.length ≠ r.original_lines.length)
    (hrc : retry_count ≤ 4)
    (hfix : translate_parallel oracle language model api_key r.original_lines
      1 requests (retry_count + 1) = (some fixed, kf))
    (hrest : foldRetry (fun ls => translate_parallel oracle language model
        api_key ls 1 requests (retry_count + 1)) retry_count rest
      = (some out2, k2)) :
    foldRetry (fun ls => translate_parallel oracle language model api_key ls
        1 requests (retry_count + 1)) retry_count (r :: rest)
      = (some (fixed ++ out2), kf + k2) ∧
    fixed.length = r.original_lines.length := by
  constructor
  · rw [foldRetry, if_pos hmis, if_neg (show ¬retry_count > 4 by omega)]
    rw [hfix, hrest]
  · unfold translate_parallel at hfix
    exact tpF_some_length _ _ _ _ _ _ _ hfix

theorem claim_C4_witness :
    foldRetry (fun ls => translate_parallel demoOracle "l" "m" "k" ls 1 1
        (0 + 1)) 0
        ({ number := 1, original_lines := ["a", "b"],
           translated_lines := ["T:a"] } :: [])
      = (some (["T:a", "T:b"] ++ []), 2 + 0) ∧
    (["T:a", "T:b"] : List String).length
      = (["a", "b"] : List String).length :=
  claim_C4_mismatch_retry demoOracle "l" "m" "k" 1 0
    { number := 1, original_lines := ["a", "b"],
      translated_lines := ["T:a"] } [] ["T:a", "T:b"] [] 2 0
    (by decide) (by decide) rfl rfl

/-- C5: if the structural mismatch persists at every retry depth (here: a
client whose responses never parse), the pipeline fails fatally (panic,
modelled as none) rather than retrying forever, because the retry depth
check fires at the ceiling. -/
theorem claim_C5_retry_exhaustion_fatal (oracle : Oracle)
    (language model api_key : String) (lines : List String)
    (chunk_lines requests : Nat) (retry_count : Int)
    (hbad : ∀ ls, oracle language model api_key ls = RemoteResp.parseError)
    (hne : lines ≠ []) (hcl : chunk_lines ≠ 0) :
    (translate_parallel oracle language model api_key lines chunk_lines
      requests retry_count).1 = none :=
  tpF_parse_error_none hbad _ lines chunk_lines requests retry_count hne hcl

theorem claim_C5_witness :
    (translate_parallel parseFailOracle "l" "m" "k" ["a"] 1 1 0).1
      = none :=
  claim_C5_retry_exhaustion_fatal parseFailOracle "l" "m" "k" ["a"] 1 1 0
    (fun _ => rfl) (by decide) (by decide)

/-- C6: the recursive retry pipeline terminates with recursion depth
bounded by the retry ceiling: any fuel at least max (6 - retry_count) 1
computes the very same result as translate_parallel, so the recursion
never needs more depth than the ceiling permits. -/
theorem claim_C6_recursion_depth_bounded (oracle : Oracle)
    (language model api_key : String) (lines : List String)
    (chunk_lines requests : Nat) (retry_count : Int) (fuel : Nat)
    (hfuel : max (6 - retry_count).toNat 1 ≤ fuel) :
    tpF oracle language model api_key fuel lines chunk_lines requests
      retry_count
      = translate_parallel oracle language model api_key lines chunk_lines
        requests retry_count :=
  tpF_fuel_congr fuel (max (6 - retry_count).toNat 1) lines chunk_lines
    requests retry_count hfuel le_rfl

theorem claim_C6_witness :
    tpF demoOracle "l" "m" "k" 10 ["a"] 1 1 0
      = translate_parallel demoOracle "l" "m" "k" ["a"] 1 1 0 :=
  claim_C6_recursion_depth_bounded demoOracle "l" "m" "k" ["a"] 1 1 0 10
    (by decide)

/-- C7: when the client response fails to parse, the call does not fail
fatally: it returns a result with empty translated lines and the original
lines preserved, so for a non-empty chunk a length mismatch is
manufactured and the retry path handles the parse failure uniformly. -/
theorem claim_C7_parse_failure_not_fatal (oracle : Oracle)
    (language model api_key : String) (ls : List String) (number : Int)
    (hp : oracle language model api_key ls = RemoteResp.parseError) :
    translate_bulk oracle number language model api_key ls
      = some { number := number, original_lines := ls,
               translated_lines := [] } ∧
    (ls ≠ [] → ([] : List String).length ≠ ls.length) := by
  constructor
  · unfold translate_bulk
    rw [hp]
  · intro hne heq
    exact hne (List.eq_nil_of_length_eq_zero (by simpa using heq.symm))

theorem claim_C7_witness :
    translate_bulk parseFailOracle 7 "l" "m" "k" ["a"]
      = some { number := 7, original_lines := ["a"],
               translated_lines := [] } ∧
    ((["a"] : List String) ≠ [] →
      ([] : List String).length ≠ (["a"] : List String).length) :=
  claim_C7_parse_failure_not_fatal parseFailOracle "l" "m" "k" ["a"] 7 rfl

/-- C8: for every empty input line sequence, translate returns the empty
sequence immediately and performs zero Translation Client invocations. -/
theorem claim_C8_empty_input_short_circuit (oracle : Oracle)
    (context : Context) :
    translate oracle context [] = (some [], 0) := rfl

/-- C10: if translate is invoked with a non-empty line sequence and a
configured chunk size of 0, the pipeline panics immediately when forming
chunks (slice::chunks with size 0), before any Translation Client
invocation. -/
theorem claim_C10_zero_chunk_size_panics (oracle : Oracle)
    (language model api_key : String) (requests : Nat) (lines : List String)
    (hne : lines ≠ []) :
    translate oracle
      { language := language, model := model, api_key := api_key,
        lines := 0, requests := requests } lines
      = (none, 0) := by
  cases lines with
  | nil => exact absurd rfl hne
  | cons x xs => rfl

theorem claim_C10_witness :
    translate demoOracle
      { language := "l", model := "m", api_key := "k", lines := 0,
        requests := 1 } ["a"] = (none, 0) :=
  claim_C10_zero_chunk_size_panics demoOracle "l" "m" "k" 1 ["a"]
    (by decide)

end TransEpub
